import Mathlib

/-!
Verification of the RDF/XML formatter (`src/xml/src/formatter.rs` of the
`rio` repository): a shallow embedding of the IRI splitter and of the
streaming triple serializer, together with theorems settling the spec's
claims about them.

Strings are modelled as lists of characters (`Str`); the XML writer sink
is modelled as the list of XML events written so far.
-/

/-- Strings, modelled as lists of characters. Rust slicing of `&str` at the
character boundaries found by `rfind`/`find` corresponds to `List.take` /
`List.drop` at character indices. -/
abbrev Str := List Char

/-- Modelled from the spec: `is_name_start_char` lives in `crate::utils`,
which is not part of the sources at hand; the spec describes it as the XML
Name grammar's name-start character class (stricter than name characters:
it excludes digits, `.`, `-`). This follows the XML 1.0 `NameStartChar`
production the spec cites: `:`, `A`-`Z`, `_`, `a`-`z`, and the listed
Unicode ranges. -/
def is_name_start_char (c : Char) : Bool :=
  let v := c.toNat
  v == 0x3A || (0x41 ≤ v && v ≤ 0x5A) || v == 0x5F || (0x61 ≤ v && v ≤ 0x7A)
  || (0xC0 ≤ v && v ≤ 0xD6) || (0xD8 ≤ v && v ≤ 0xF6) || (0xF8 ≤ v && v ≤ 0x2FF)
  || (0x370 ≤ v && v ≤ 0x37D) || (0x37F ≤ v && v ≤ 0x1FFF)
  || (0x200C ≤ v && v ≤ 0x200D) || (0x2070 ≤ v && v ≤ 0x218F)
  || (0x2C00 ≤ v && v ≤ 0x2FEF) || (0x3001 ≤ v && v ≤ 0xD7FF)
  || (0xF900 ≤ v && v ≤ 0xFDCF) || (0xFDF0 ≤ v && v ≤ 0xFFFD)
  || (0x10000 ≤ v && v ≤ 0xEFFFF)

/-- Modelled from the spec: `is_name_char` lives in `crate::utils`, which is
not part of the sources at hand; the spec describes it as the XML Name
grammar's name character class ("letters, digits, `.`, `-`, `_`, `:`, and
certain Unicode ranges"). This follows the XML 1.0 `NameChar` production:
every name-start character, plus `-`, `.`, digits, `#xB7`, `#x300-#x36F`
and `#x203F-#x2040`. -/
def is_name_char (c : Char) : Bool :=
  let v := c.toNat
  is_name_start_char c || v == 0x2D || v == 0x2E || (0x30 ≤ v && v ≤ 0x39)
  || v == 0xB7 || (0x300 ≤ v && v ≤ 0x36F) || (0x203F ≤ v && v ≤ 0x2040)

/-- Index of the last element satisfying `p`, if any: the embedding of
Rust's `str::rfind` (at character granularity). -/
def lastIdxWhere (p : Char → Bool) : Str → Option Nat
  | [] => none
  | c :: cs =>
    match lastIdxWhere p cs with
    | some i => some (i + 1)
    | none => if p c then some 0 else none

/-- Index of the first element satisfying `p`, if any: the embedding of
Rust's `str::find` (at character granularity). -/
def firstIdxWhere (p : Char → Bool) : Str → Option Nat
  | [] => none
  | c :: cs => if p c then some 0 else (firstIdxWhere p cs).map (· + 1)

/-- Embedding of `split_iri` (formatter.rs, lines 126-139): scan from the
end for the last character that is not an XML name character
(`position_base`); from there, find the first XML name-start character
(offset `position_add`); split the IRI at `position_base + position_add`.
If either search fails, return the whole IRI with an empty local part. -/
def split_iri (iri : Str) : Str × Str :=
  match lastIdxWhere (fun c => !is_name_char c) iri with
  | some position_base =>
    match firstIdxWhere is_name_start_char (iri.drop position_base) with
    | some position_add =>
      (iri.take (position_base + position_add),
       iri.drop (position_base + position_add))
    | none => (iri, [])
  | none => (iri, [])

/-- RDF subjects (`rio_api::model::NamedOrBlankNode`): a named node
carrying an IRI or a blank node carrying a local identifier. The formatter
retains an owned copy (`OwnedNamedOrBlankNode`) of the last subject;
ownership is immaterial here, so one type stands for both. -/
inductive NamedOrBlankNode where
  | namedNode (iri : Str)
  | blankNode (id : Str)
deriving DecidableEq, Repr

/-- RDF literals (`rio_api::model::Literal`): simple, language-tagged, or
datatype-typed. -/
inductive Literal where
  | simple (value : Str)
  | languageTaggedString (value : Str) (language : Str)
  | typed (value : Str) (datatype : Str)
deriving DecidableEq, Repr

/-- The string value carried by a literal (the `value` field common to the
three variants). -/
def Literal.value : Literal → Str
  | Literal.simple v => v
  | Literal.languageTaggedString v _ => v
  | Literal.typed v _ => v

/-- RDF objects (`rio_api::model::Term`): named node, blank node or
literal. The typed literal's datatype is a named node; only its IRI is
used, so it is carried directly. -/
inductive Term where
  | namedNode (iri : Str)
  | blankNode (id : Str)
  | literal (l : Literal)
deriving DecidableEq, Repr

/-- An RDF triple (`rio_api::model::Triple`). The predicate is a named
node of which only the IRI field is ever read (`triple.predicate.iri`), so
it is carried directly as that IRI. -/
structure Triple where
  subject : NamedOrBlankNode
  predicate : Str
  object : Term
deriving DecidableEq, Repr

/-- The XML events the formatter writes through `quick_xml::Writer`:
declaration, start tag with attributes, self-closing (empty) tag with
attributes, text, and end tag. -/
inductive Event where
  | decl (version : Str) (encoding : Str)
  | start (name : Str) (attributes : List (Str × Str))
  | empty (name : Str) (attributes : List (Str × Str))
  | text (content : Str)
  | endTag (name : Str)
deriving DecidableEq, Repr, Inhabited

def rdfNamespace : Str := "http://www.w3.org/1999/02/22-rdf-syntax-ns#".toList

/-- The formatter state (`RdfXmlFormatter<W>`): the sink of the underlying
writer is modelled as the list of events written so far, next to the
retained `current_subject`. -/
structure RdfXmlFormatter where
  events : List Event
  current_subject : Option NamedOrBlankNode
deriving DecidableEq, Repr

/-- Embedding of `RdfXmlFormatter::new` (lines 35-45): write the XML
declaration (1.0, UTF-8) and open `rdf:RDF` with the `xmlns:rdf` binding;
`current_subject` starts as `None`. -/
def RdfXmlFormatter.new : RdfXmlFormatter :=
  { events := [Event.decl "1.0".toList "UTF-8".toList,
               Event.start "rdf:RDF".toList [("xmlns:rdf".toList, rdfNamespace)]],
    current_subject := none }

/-- Embedding of the grouping step of `format` (lines 63-80): when the
triple's subject differs from `current_subject` (including when the latter
is `None`), close the open `rdf:Description` if any, then open a new one
with `rdf:about` (named node) or `rdf:nodeID` (blank node); otherwise
write nothing. -/
def descriptionEvents (current_subject : Option NamedOrBlankNode)
    (subject : NamedOrBlankNode) : List Event :=
  if current_subject = some subject then []
  else
    (if current_subject.isSome then [Event.endTag "rdf:Description".toList] else [])
    ++ [Event.start "rdf:Description".toList
         [match subject with
          | NamedOrBlankNode.namedNode n => ("rdf:about".toList, n)
          | NamedOrBlankNode.blankNode n => ("rdf:nodeID".toList, n)]]

/-- Embedding of the qualified-name choice of `format` (lines 82-87),
first component: when the predicate's local part is empty the tag is the
fixed `prop:`, otherwise it is the local part. -/
def prop_qname (predicate : Str) : Str :=
  if (split_iri predicate).2.isEmpty then "prop:".toList
  else (split_iri predicate).2

/-- Embedding of the qualified-name choice of `format` (lines 82-87),
second component: when the predicate's local part is empty the element
declares `xmlns:prop` bound to the namespace part, otherwise `xmlns`
bound to the namespace part. -/
def prop_xmlns (predicate : Str) : Str × Str :=
  if (split_iri predicate).2.isEmpty
  then ("xmlns:prop".toList, (split_iri predicate).1)
  else ("xmlns".toList, (split_iri predicate).1)

/-- Embedding of the property step of `format` (lines 88-119): encode the
object onto the property element: named node as a self-closing tag with
`rdf:resource`, blank node as a self-closing tag with `rdf:nodeID`,
literal as start tag / text / end tag, with `xml:lang` for a
language-tagged and `rdf:datatype` for a typed literal. -/
def propertyEvents (predicate : Str) (object : Term) : List Event :=
  let enc : List (Str × Str) × Option Str :=
    match object with
    | Term.namedNode n =>
        ([prop_xmlns predicate, ("rdf:resource".toList, n)], none)
    | Term.blankNode n =>
        ([prop_xmlns predicate, ("rdf:nodeID".toList, n)], none)
    | Term.literal (Literal.simple value) =>
        ([prop_xmlns predicate], some value)
    | Term.literal (Literal.languageTaggedString value language) =>
        ([prop_xmlns predicate, ("xml:lang".toList, language)], some value)
    | Term.literal (Literal.typed value datatype) =>
        ([prop_xmlns predicate, ("rdf:datatype".toList, datatype)], some value)
  match enc.2 with
  | some content =>
      [Event.start (prop_qname predicate) enc.1, Event.text content,
       Event.endTag (prop_qname predicate)]
  | none => [Event.empty (prop_qname predicate) enc.1]

/-- Embedding of `TriplesFormatter::format` (lines 62-123): append the
grouping events and the property events to the sink and retain the
triple's subject. -/
def RdfXmlFormatter.format (self : RdfXmlFormatter) (triple : Triple) :
    RdfXmlFormatter :=
  { events := self.events
      ++ descriptionEvents self.current_subject triple.subject
      ++ propertyEvents triple.predicate triple.object,
    current_subject := some triple.subject }

/-- Embedding of `RdfXmlFormatter::finish` (lines 48-56): close the open
`rdf:Description` if any, close `rdf:RDF`, and return the sink. -/
def RdfXmlFormatter.finish (self : RdfXmlFormatter) : List Event :=
  self.events
  ++ (if self.current_subject.isSome
      then [Event.endTag "rdf:Description".toList] else [])
  ++ [Event.endTag "rdf:RDF".toList]

/-- Format a whole sequence of triples. -/
def formatAll (self : RdfXmlFormatter) (triples : List Triple) :
    RdfXmlFormatter :=
  triples.foldl RdfXmlFormatter.format self

/-- The events one `format` call appends to the sink. -/
def formatDelta (self : RdfXmlFormatter) (triple : Triple) : List Event :=
  (self.format triple).events.drop self.events.length

/-- The name of an event's tag (empty for declarations and text). -/
def eventName : Event → Str
  | Event.start n _ => n
  | Event.empty n _ => n
  | Event.endTag n => n
  | _ => []

/-- The attributes carried by an event. -/
def eventAttributes : Event → List (Str × Str)
  | Event.start _ a => a
  | Event.empty _ a => a
  | _ => []

/-- The text contents occurring in a list of events. -/
def eventTexts (es : List Event) : List Str :=
  es.filterMap fun e => match e with
    | Event.text c => some c
    | _ => none

/-- How many start tags with the given name occur in a list of events. -/
def countStartTags (name : Str) (es : List Event) : Nat :=
  es.countP fun e => match e with
    | Event.start n _ => n == name
    | _ => false

/-- Whether an attribute list binds the given attribute name. -/
def hasAttr (name : Str) (attrs : List (Str × Str)) : Bool :=
  attrs.any fun a => a.1 == name

/-- A concrete named-node subject, for closed scenarios. -/
def exSubjectA : NamedOrBlankNode := NamedOrBlankNode.namedNode "a".toList

/-- A second concrete named-node subject, for closed scenarios. -/
def exSubjectB : NamedOrBlankNode := NamedOrBlankNode.namedNode "b".toList

/-- A concrete triple with the given subject, a predicate whose IRI splits
into namespace `e/` and local name `p`, and a simple-literal object. -/
def exTriple (s : NamedOrBlankNode) : Triple :=
  { subject := s, predicate := "e/p".toList,
    object := Term.literal (Literal.simple "v".toList) }

/-- A name-start character is in particular a name character. -/
lemma is_name_char_of_start {c : Char} (h : is_name_start_char c = true) :
    is_name_char c = true := by
  simp [is_name_char, h]

/-- `lastIdxWhere p l = none` means no element of `l` satisfies `p`. -/
lemma lastIdxWhere_eq_none {p : Char → Bool} : ∀ {l : Str},
    lastIdxWhere p l = none ↔ ∀ c ∈ l, p c = false
  | [] => by simp [lastIdxWhere]
  | c :: cs => by
    have ih := @lastIdxWhere_eq_none p cs
    simp only [lastIdxWhere]
    cases hcs : lastIdxWhere p cs with
    | some j =>
      rw [hcs] at ih
      simp only [reduceCtorEq, false_iff, not_forall] at ih
      simp only [reduceCtorEq, false_iff, List.mem_cons, not_forall]
      obtain ⟨d, hd, hpd⟩ := ih
      exact ⟨d, Or.inr hd, hpd⟩
    | none =>
      rw [hcs] at ih
      simp only [true_iff] at ih
      cases hp : p c with
      | true => simp [hp]
      | false =>
        rw [if_neg (by simp [hp])]
        constructor
        · intro _ d hd
          rcases List.mem_cons.mp hd with rfl | hd'
          · exact hp
          · exact ih d hd'
        · intro _
          rfl

/-- The element found by `lastIdxWhere` satisfies `p`, and every element
after it fails `p`. -/
lemma lastIdxWhere_spec {p : Char → Bool} : ∀ {l : Str} {i : Nat},
    lastIdxWhere p l = some i →
    ∃ hi : i < l.length,
      p (l.get ⟨i, hi⟩) = true ∧ ∀ c ∈ l.drop (i + 1), p c = false
  | [], i => by simp [lastIdxWhere]
  | c :: cs, i => by
    simp only [lastIdxWhere]
    cases hcs : lastIdxWhere p cs with
    | some j =>
      intro h
      obtain rfl : j + 1 = i := by simpa using h
      obtain ⟨hj, hpj, hafter⟩ := lastIdxWhere_spec hcs
      exact ⟨by simpa using Nat.succ_lt_succ hj, by simpa using hpj,
        by simpa using hafter⟩
    | none =>
      cases hp : p c with
      | true =>
        intro h
        obtain rfl : 0 = i := by simpa using h
        exact ⟨Nat.succ_pos _, by simpa using hp,
          by simpa using lastIdxWhere_eq_none.mp hcs⟩
      | false => simp

/-- The element found by `firstIdxWhere` satisfies `p`. -/
lemma firstIdxWhere_spec {p : Char → Bool} : ∀ {l : Str} {i : Nat},
    firstIdxWhere p l = some i →
    ∃ hi : i < l.length, p (l.get ⟨i, hi⟩) = true
  | [], i => by simp [firstIdxWhere]
  | c :: cs, i => by
    simp only [firstIdxWhere]
    cases hp : p c with
    | true =>
      intro h
      obtain rfl : 0 = i := by simpa using h
      exact ⟨Nat.succ_pos _, by simpa using hp⟩
    | false =>
      intro h
      rw [if_neg (by simp)] at h
      simp only [Option.map_eq_some'] at h
      obtain ⟨j, hj, rfl⟩ := h
      obtain ⟨hjl, hpj⟩ := firstIdxWhere_spec hj
      exact ⟨by simpa using Nat.succ_lt_succ hjl, by simpa using hpj⟩

/-- C3. Splitter reconstruction: for every IRI, the namespace part
concatenated with the local part is exactly the input IRI. -/
theorem split_iri_reconstruction (iri : Str) :
    (split_iri iri).1 ++ (split_iri iri).2 = iri := by
  unfold split_iri
  cases h : lastIdxWhere (fun c => !is_name_char c) iri with
  | none => simp
  | some position_base =>
    cases h2 : firstIdxWhere is_name_start_char (iri.drop position_base) with
    | none => simp only [h, h2]; simp
    | some position_add =>
      simp only [h, h2]
      simp [List.take_append_drop]

/-- C4. Splitter local-part validity: whenever `split_iri` returns a
non-empty local part, its first character is an XML name-start character
and every later character is an XML name character; and
`split_iri "http://schema.org/Person"` is
`("http://schema.org/", "Person")`. -/
theorem split_iri_local_part_valid (iri : Str)
    (h : (split_iri iri).2 ≠ []) :
    is_name_start_char ((split_iri iri).2.headI) = true
    ∧ (∀ c ∈ (split_iri iri).2.tail, is_name_char c = true)
    ∧ split_iri "http://schema.org/Person".toList
        = ("http://schema.org/".toList, "Person".toList) := by
  have main : is_name_start_char ((split_iri iri).2.headI) = true
      ∧ ∀ c ∈ (split_iri iri).2.tail, is_name_char c = true := ?_
  · exact ⟨main.1, main.2, by decide⟩
  unfold split_iri at h ⊢
  cases hb : lastIdxWhere (fun c => !is_name_char c) iri with
  | none => simp only [hb] at h; simp at h
  | some pb =>
    simp only [hb] at h ⊢
    cases ha : firstIdxWhere is_name_start_char (iri.drop pb) with
    | none => simp only [ha] at h; simp at h
    | some pa =>
      simp only [ha] at h ⊢
      obtain ⟨hbl, _, hafter⟩ := lastIdxWhere_spec hb
      obtain ⟨hal, hstart⟩ := firstIdxWhere_spec ha
      have hlen : pb + pa < iri.length := by
        have := hal
        rw [List.length_drop] at this
        omega
      have hget : (iri.drop pb).get ⟨pa, hal⟩ = iri.get ⟨pb + pa, hlen⟩ := by
        simp [List.getElem_drop]
      have hdropcons : iri.drop (pb + pa)
          = iri.get ⟨pb + pa, hlen⟩ :: iri.drop (pb + pa + 1) := by
        rw [List.get_eq_getElem]
        exact List.drop_eq_getElem_cons hlen
      constructor
      · rw [hdropcons]
        simp only [List.headI]
        rw [hget] at hstart
        exact hstart
      · rw [hdropcons]
        simp only [List.tail_cons]
        intro c hc
        have hc1 : c ∈ iri.drop (pb + 1) := by
          have : iri.drop (pb + pa + 1) = (iri.drop (pb + 1)).drop pa := by
            rw [List.drop_drop]
            congr 1
            omega
          rw [this] at hc
          exact List.mem_of_mem_drop hc
        have := hafter c hc1
        simpa using this

/-- C7. Splitter totality and fallback: `split_iri` is a total function
(each branch returns a defined pair); whenever the IRI consists entirely
of name characters, or contains no name-start character at or after its
last non-name character, the result is the whole IRI with an empty local
part; the empty string maps to `([], [])` and
`split_iri "http://schema.org/"` is `("http://schema.org/", "")`. -/
theorem split_iri_total_fallback (iri : Str)
    (h : (∀ c ∈ iri, is_name_char c = true)
       ∨ ∃ pb, lastIdxWhere (fun c => !is_name_char c) iri = some pb
           ∧ firstIdxWhere is_name_start_char (iri.drop pb) = none) :
    split_iri iri = (iri, [])
    ∧ split_iri [] = ([], [])
    ∧ split_iri "http://schema.org/".toList
        = ("http://schema.org/".toList, []) := by
  refine ⟨?_, by decide, by decide⟩
  rcases h with h | ⟨pb, hb, ha⟩
  · have hnone : lastIdxWhere (fun c => !is_name_char c) iri = none := by
      rw [lastIdxWhere_eq_none]
      intro c hc
      simp [h c hc]
    unfold split_iri
    simp only [hnone]
  · unfold split_iri
    simp only [hb, ha]

/-- Witness for C4 at the IRI `http://schema.org/Person`. -/
theorem split_iri_local_part_valid_witness :
    is_name_start_char
        ((split_iri "http://schema.org/Person".toList).2.headI) = true
    ∧ (∀ c ∈ (split_iri "http://schema.org/Person".toList).2.tail,
        is_name_char c = true)
    ∧ split_iri "http://schema.org/Person".toList
        = ("http://schema.org/".toList, "Person".toList) :=
  split_iri_local_part_valid ("http://schema.org/Person".toList) (by decide)

/-- Witness for C7 at the IRI `http://schema.org/`, whose last non-name
character (the final slash, index 17) is followed by no name-start
character. -/
theorem split_iri_total_fallback_witness :
    split_iri "http://schema.org/".toList
        = ("http://schema.org/".toList, [])
    ∧ split_iri [] = ([], [])
    ∧ split_iri "http://schema.org/".toList
        = ("http://schema.org/".toList, []) :=
  split_iri_total_fallback ("http://schema.org/".toList)
    (Or.inr ⟨17, by decide, by decide⟩)

/-- When `split_iri` returns an empty local part, the namespace part is
the entire input IRI. -/
lemma split_iri_fst_of_snd_empty (p : Str) (h : (split_iri p).2 = []) :
    (split_iri p).1 = p := by
  unfold split_iri at h ⊢
  cases hb : lastIdxWhere (fun c => !is_name_char c) p with
  | none => simp only [hb]
  | some pb =>
    simp only [hb] at h ⊢
    cases ha : firstIdxWhere is_name_start_char (p.drop pb) with
    | none => simp only [ha]
    | some pa =>
      simp only [ha] at h
      exfalso
      obtain ⟨hal, _⟩ := firstIdxWhere_spec ha
      have hle := List.drop_eq_nil_iff.mp h
      rw [List.length_drop] at hal
      omega

/-- One `format` call appends exactly the grouping events followed by the
property events. -/
lemma formatDelta_eq (f : RdfXmlFormatter) (t : Triple) :
    formatDelta f t
      = descriptionEvents f.current_subject t.subject
        ++ propertyEvents t.predicate t.object := by
  unfold formatDelta RdfXmlFormatter.format
  rw [List.append_assoc, List.drop_left]

/-- C1 counterexample: with the retained subject equal to the triple's
subject, `format` can still emit an `rdf:Description` open event — the
property element itself bears that tag when the predicate IRI's local
name is `rdf:Description` (predicate `http://x/rdf:Description`). -/
theorem format_grouping_counterexample :
    (RdfXmlFormatter.mk [] (some (NamedOrBlankNode.namedNode "s".toList))).current_subject
      = some (Triple.mk (NamedOrBlankNode.namedNode "s".toList)
          "http://x/rdf:Description".toList
          (Term.literal (Literal.simple "v".toList))).subject
    ∧ countStartTags "rdf:Description".toList
        (formatDelta
          (RdfXmlFormatter.mk [] (some (NamedOrBlankNode.namedNode "s".toList)))
          (Triple.mk (NamedOrBlankNode.namedNode "s".toList)
            "http://x/rdf:Description".toList
            (Term.literal (Literal.simple "v".toList))))
      ≠ 0 :=
  ⟨rfl, by decide⟩

/-- C1 (amended). Grouping: each `format` call appends exactly the
grouping events followed by the property element's events; the grouping
events are empty when the triple's subject equals the retained
`current_subject`, and otherwise consist of the close tag of the open
`rdf:Description` (when one is open) followed by a new `rdf:Description`
open tag with `rdf:about` for a named-node subject or `rdf:nodeID` for a
blank-node subject; a subject reappearing non-consecutively gets a new
`rdf:Description` block (three blocks for subjects A, B, A). -/
theorem format_grouping (f : RdfXmlFormatter) (t : Triple) :
    formatDelta f t =
      (if f.current_subject = some t.subject then ([] : List Event)
       else
         (if f.current_subject.isSome
          then [Event.endTag "rdf:Description".toList] else [])
         ++ [Event.start "rdf:Description".toList
              [match t.subject with
               | NamedOrBlankNode.namedNode n => ("rdf:about".toList, n)
               | NamedOrBlankNode.blankNode n => ("rdf:nodeID".toList, n)]])
      ++ propertyEvents t.predicate t.object
    ∧ countStartTags "rdf:Description".toList
        (formatAll RdfXmlFormatter.new
          [exTriple exSubjectA, exTriple exSubjectB, exTriple exSubjectA]).events
      = 3 :=
  ⟨by rw [formatDelta_eq]; rfl, by decide⟩

/-- C2. Object encoding: a named-node object yields a single self-closing
property element carrying `rdf:resource` set to the object's IRI and no
text content; a blank-node object a single self-closing element carrying
`rdf:nodeID` and no text content; a literal object an open tag, one text
event whose content is exactly the literal's value, and a close tag. -/
theorem format_object_encoding (p : Str) :
    (∀ n, propertyEvents p (Term.namedNode n)
        = [Event.empty (prop_qname p) [prop_xmlns p, ("rdf:resource".toList, n)]]
      ∧ eventTexts (propertyEvents p (Term.namedNode n)) = [])
    ∧ (∀ n, propertyEvents p (Term.blankNode n)
        = [Event.empty (prop_qname p) [prop_xmlns p, ("rdf:nodeID".toList, n)]]
      ∧ eventTexts (propertyEvents p (Term.blankNode n)) = [])
    ∧ (∀ l, ∃ attrs, propertyEvents p (Term.literal l)
        = [Event.start (prop_qname p) attrs, Event.text l.value,
           Event.endTag (prop_qname p)]
      ∧ eventTexts (propertyEvents p (Term.literal l)) = [l.value]) := by
  refine ⟨fun n => ⟨rfl, rfl⟩, fun n => ⟨rfl, rfl⟩, fun l => ?_⟩
  cases l with
  | simple v => exact ⟨[prop_xmlns p], rfl, rfl⟩
  | languageTaggedString v lang =>
      exact ⟨[prop_xmlns p, ("xml:lang".toList, lang)], rfl, rfl⟩
  | typed v dt =>
      exact ⟨[prop_xmlns p, ("rdf:datatype".toList, dt)], rfl, rfl⟩

/-- C5. Predicate element naming: the emitted property element's tag is
the predicate's local part when that is non-empty and the fixed `prop:`
otherwise; it declares `xmlns` bound to the namespace part in the first
case and `xmlns:prop` bound to the entire predicate IRI in the second. -/
theorem format_predicate_naming (p : Str) (o : Term) :
    eventName ((propertyEvents p o).headI)
        = (if (split_iri p).2.isEmpty then "prop:".toList else (split_iri p).2)
    ∧ ((if (split_iri p).2.isEmpty
        then ("xmlns:prop".toList, p)
        else ("xmlns".toList, (split_iri p).1))
       ∈ eventAttributes ((propertyEvents p o).headI)) := by
  have hname : eventName ((propertyEvents p o).headI) = prop_qname p := by
    rcases o with n | n | l
    · rfl
    · rfl
    · cases l <;> rfl
  have hattr : prop_xmlns p ∈ eventAttributes ((propertyEvents p o).headI) := by
    rcases o with n | n | l
    · exact List.mem_cons_self _ _
    · exact List.mem_cons_self _ _
    · cases l <;> exact List.mem_cons_self _ _
  constructor
  · rw [hname]
    rfl
  · cases hsnd : (split_iri p).2.isEmpty with
    | true =>
      have h1 : (split_iri p).1 = p :=
        split_iri_fst_of_snd_empty p (List.isEmpty_iff.mp hsnd)
      have : prop_xmlns p = ("xmlns:prop".toList, p) := by
        rw [prop_xmlns, if_pos hsnd, h1]
      rw [if_pos rfl, ← this]
      exact hattr
    | false =>
      have : prop_xmlns p = ("xmlns".toList, (split_iri p).1) := by
        rw [prop_xmlns, if_neg (by simp [hsnd])]
      rw [if_neg (by simp), ← this]
      exact hattr

/-- C6. Literal attribute exclusivity: the property element never carries
both `xml:lang` and `rdf:datatype`; it carries `xml:lang` exactly when the
object is a language-tagged literal and `rdf:datatype` exactly when the
object is a typed literal — in particular neither when the object is a
named-node or blank-node reference or a simple literal. -/
theorem format_literal_attributes (p : Str) (o : Term) :
    (hasAttr "xml:lang".toList (eventAttributes ((propertyEvents p o).headI))
      && hasAttr "rdf:datatype".toList
          (eventAttributes ((propertyEvents p o).headI))) = false
    ∧ hasAttr "xml:lang".toList (eventAttributes ((propertyEvents p o).headI))
        = (match o with
           | Term.literal (Literal.languageTaggedString _ _) => true
           | _ => false)
    ∧ hasAttr "rdf:datatype".toList
          (eventAttributes ((propertyEvents p o).headI))
        = (match o with
           | Term.literal (Literal.typed _ _) => true
           | _ => false) := by
  have hx : ∀ q : String, (prop_xmlns p).1 == q.toList
      → "xmlns".toList = q.toList ∨ "xmlns:prop".toList = q.toList := by
    intro q hq
    rw [prop_xmlns] at hq
    cases hsnd : (split_iri p).2.isEmpty with
    | true => rw [if_pos hsnd] at hq; exact Or.inr (by simpa using hq)
    | false => rw [if_neg (by simp [hsnd])] at hq; exact Or.inl (by simpa using hq)
  have hlang : (prop_xmlns p).1 ≠ "xml:lang".toList := by
    intro hq
    rcases hx "xml:lang" (by simp [hq]) with h | h <;> simp at h
  have hdt : (prop_xmlns p).1 ≠ "rdf:datatype".toList := by
    intro hq
    rcases hx "rdf:datatype" (by simp [hq]) with h | h <;> simp at h
  have e1 : "xml:lang".toList = ['x', 'm', 'l', ':', 'l', 'a', 'n', 'g'] := by
    decide
  have e2 : "rdf:datatype".toList
      = ['r', 'd', 'f', ':', 'd', 'a', 't', 'a', 't', 'y', 'p', 'e'] := by
    decide
  rw [e1] at hlang
  rw [e2] at hdt
  rcases o with n | n | l
  · simp [propertyEvents, eventAttributes, hasAttr, hlang, hdt]
  · simp [propertyEvents, eventAttributes, hasAttr, hlang, hdt]
  · cases l <;> simp [propertyEvents, eventAttributes, hasAttr, hlang, hdt]

/-- C8. Document closure: `finish` appends the `rdf:Description` close tag
exactly when `current_subject` is `Some`, then closes `rdf:RDF`; the
returned sink always ends in the `rdf:RDF` close tag; and with zero
triples formatted (`new` then `finish`) the output is exactly the XML
declaration (1.0, UTF-8) followed by the empty `rdf:RDF` root with its
`xmlns:rdf` declaration — no `rdf:Description` at all. -/
theorem finish_document_closure (f : RdfXmlFormatter) :
    f.finish = f.events
      ++ (if f.current_subject.isSome
          then [Event.endTag "rdf:Description".toList] else [])
      ++ [Event.endTag "rdf:RDF".toList]
    ∧ f.finish.getLast? = some (Event.endTag "rdf:RDF".toList)
    ∧ RdfXmlFormatter.new.finish
        = [Event.decl "1.0".toList "UTF-8".toList,
           Event.start "rdf:RDF".toList [("xmlns:rdf".toList, rdfNamespace)],
           Event.endTag "rdf:RDF".toList]
    ∧ countStartTags "rdf:Description".toList RdfXmlFormatter.new.finish = 0 :=
  ⟨rfl, by simp [RdfXmlFormatter.finish, List.getLast?_concat], by decide, by decide⟩

/-- C9. Subject-state invariant: the freshly constructed formatter has
`current_subject = None`, and after every `format` call it equals `Some`
of that call's subject, unconditionally. -/
theorem subject_state_invariant :
    RdfXmlFormatter.new.current_subject = none
    ∧ ∀ (f : RdfXmlFormatter) (t : Triple),
        (f.format t).current_subject = some t.subject :=
  ⟨rfl, fun _ _ => rfl⟩

/-- C10. Determinism: the events a `format` call appends and the resulting
retained subject depend only on the retained `current_subject` and the
triple — two formatters in the same grouping state write the same bytes
for the same triple, regardless of their histories. -/
theorem format_deterministic (f g : RdfXmlFormatter) (t : Triple)
    (h : f.current_subject = g.current_subject) :
    formatDelta f t = formatDelta g t
    ∧ (f.format t).current_subject = (g.format t).current_subject := by
  rw [formatDelta_eq, formatDelta_eq, h]
  exact ⟨rfl, rfl⟩

/-- Witness for C10: a fresh formatter and a formatter with a different
history but the same (absent) retained subject append the same events. -/
theorem format_deterministic_witness :
    formatDelta RdfXmlFormatter.new (exTriple exSubjectA)
      = formatDelta (RdfXmlFormatter.mk [] none) (exTriple exSubjectA)
    ∧ (RdfXmlFormatter.new.format (exTriple exSubjectA)).current_subject
      = ((RdfXmlFormatter.mk [] none).format (exTriple exSubjectA)).current_subject :=
  format_deterministic RdfXmlFormatter.new (RdfXmlFormatter.mk [] none)
    (exTriple exSubjectA) rfl
